import Mathlib

/- Verification of the CHIRP audio firmware core: a shallow embedding of the
ring buffer from config.h and of the MP4/M4A container parser from
mp4_parser.cpp, together with theorems about their behaviour.

Modelling conventions: machine integers are Nat with explicit reduction
modulo 2^32 (written m32) wherever the C code performs uint32_t arithmetic
that can wrap; bytes read from a file are Nat values below 256; a file is a
byte list, and reads past the end yield 0 (the C code ignores short-read
results, so the zero-padded model fixes one concrete behaviour for them). -/

/- ==================== Ring buffer (config.h) ==================== -/

/- The source stores a raw int16_t pointer that may be null; the backing
storage is modelled as Option (List Int). streamBufferSize and
streamBufferMask = streamBufferSize - 1 are globals in the source; here the
capacity N is a parameter and the mask is N - 1. The C expression
writePos - readPos + streamBufferSize is computed in int arithmetic; for
index values below N it equals writePos + N - readPos, which is the form
used here (Nat subtraction would truncate the other order). -/
structure RingBuffer where
  buffer : Option (List Int)
  readPos : Nat
  writePos : Nat
deriving DecidableEq

def RingBuffer.availableForRead (N : Nat) (rb : RingBuffer) : Nat :=
  match rb.buffer with
  | none => 0
  | some _ => (rb.writePos + N - rb.readPos) &&& (N - 1)

def RingBuffer.availableForWrite (N : Nat) (rb : RingBuffer) : Nat :=
  match rb.buffer with
  | none => 0
  | some _ => (N - 1) - ((rb.writePos + N - rb.readPos) &&& (N - 1))

def RingBuffer.push (N : Nat) (rb : RingBuffer) (sample : Int) : RingBuffer × Bool :=
  match rb.buffer with
  | none => (rb, false)
  | some b =>
    let nextWrite := (rb.writePos + 1) &&& (N - 1)
    if nextWrite = rb.readPos then (rb, false)
    else ({ buffer := some (b.set rb.writePos sample),
            readPos := rb.readPos, writePos := nextWrite }, true)

def RingBuffer.pop (N : Nat) (rb : RingBuffer) : Int × RingBuffer :=
  match rb.buffer with
  | none => (0, rb)
  | some b => (b.getD rb.readPos 0, { rb with readPos := (rb.readPos + 1) &&& (N - 1) })

/- A sequence of producer/consumer operations, for the "after any sequence of
push/pop" properties. -/
inductive RBOp where
  | push : Int → RBOp
  | pop : RBOp

def runOps (N : Nat) (s : RingBuffer) : List RBOp → RingBuffer
  | [] => s
  | RBOp.push v :: rest => runOps N (RingBuffer.push N s v).1 rest
  | RBOp.pop :: rest => runOps N (RingBuffer.pop N s).2 rest

def pushList (N : Nat) (s : RingBuffer) : List Int → RingBuffer × Bool
  | [] => (s, true)
  | v :: rest =>
    let r := RingBuffer.push N s v
    let r2 := pushList N r.1 rest
    (r2.1, r.2 && r2.2)

theorem avail_sum (N : Nat) (rb : RingBuffer) (b : List Int) (hb : rb.buffer = some b) :
    RingBuffer.availableForRead N rb + RingBuffer.availableForWrite N rb = N - 1 := by
  have h : (rb.writePos + N - rb.readPos) &&& (N - 1) ≤ N - 1 := Nat.and_le_right
  simp only [RingBuffer.availableForRead, RingBuffer.availableForWrite, hb]
  omega

theorem push_keeps_some (N : Nat) (s : RingBuffer) (v : Int) (b : List Int)
    (hb : s.buffer = some b) : ∃ b2, (RingBuffer.push N s v).1.buffer = some b2 := by
  simp only [RingBuffer.push, hb]
  split
  · exact ⟨b, hb⟩
  · exact ⟨b.set s.writePos v, rfl⟩

theorem pop_keeps_buffer (N : Nat) (s : RingBuffer) :
    (RingBuffer.pop N s).2.buffer = s.buffer := by
  simp only [RingBuffer.pop]
  cases h : s.buffer <;> simp [h]

theorem runOps_buffer_some (N : Nat) (ops : List RBOp) :
    ∀ (s : RingBuffer) (b : List Int), s.buffer = some b →
      ∃ b2, (runOps N s ops).buffer = some b2 := by
  induction ops with
  | nil => intro s b hb; exact ⟨b, hb⟩
  | cons op rest ih =>
    intro s b hb
    cases op with
    | push v =>
      obtain ⟨b2, hb2⟩ := push_keeps_some N s v b hb
      exact ih _ b2 hb2
    | pop =>
      have h := pop_keeps_buffer N s
      exact ih _ b (h.trans hb)

/-- C5: for every ring buffer of power-of-two capacity N = 2^k with a non-null
backing buffer, after every sequence of push and pop operations,
availableForRead + availableForWrite = N - 1. -/
theorem ringBuffer_read_write_sum (k : Nat) (b : List Int) (ops : List RBOp) :
    RingBuffer.availableForRead (2 ^ k) (runOps (2 ^ k) ⟨some b, 0, 0⟩ ops)
      + RingBuffer.availableForWrite (2 ^ k) (runOps (2 ^ k) ⟨some b, 0, 0⟩ ops)
      = 2 ^ k - 1 := by
  obtain ⟨b2, hb2⟩ := runOps_buffer_some (2 ^ k) ops ⟨some b, 0, 0⟩ b rfl
  exact avail_sum _ _ b2 hb2

theorem pushList_fill (k : Nat) (vs : List Int) :
    ∀ (j : Nat) (b : List Int), j + vs.length < 2 ^ k →
      ∃ b2, pushList (2 ^ k) ⟨some b, 0, j⟩ vs = (⟨some b2, 0, j + vs.length⟩, true) := by
  induction vs with
  | nil =>
    intro j b _
    exact ⟨b, by simp [pushList]⟩
  | cons v rest ih =>
    intro j b h
    have hlen : (v :: rest).length = rest.length + 1 := by simp
    have h1 : j + 1 < 2 ^ k := by omega
    have hnw : (j + 1) &&& (2 ^ k - 1) = j + 1 := by
      rw [Nat.and_pow_two_sub_one_eq_mod]
      exact Nat.mod_eq_of_lt h1
    obtain ⟨b2, hb2⟩ := ih (j + 1) (b.set j v) (by omega)
    refine ⟨b2, ?_⟩
    simp only [pushList, RingBuffer.push, hnw]
    rw [if_neg (by omega)]
    simp only [hb2]
    simp only [Bool.true_and, List.length_cons]
    have harith : j + 1 + rest.length = j + (rest.length + 1) := by omega
    rw [harith]

/-- C6: pushing onto a full ring buffer returns false and is a no-op (the
state, hence every stored sample, readPos, writePos and availableForRead, is
unchanged); and after N - 1 pushes with no pops on an initially empty buffer
of capacity N = 2^k, all pushes succeeded, the buffer is full (advancing
writePos by one lands on readPos) and availableForRead is N - 1. -/
theorem ringBuffer_push_full_noop :
    (∀ (N : Nat) (rb : RingBuffer) (v : Int),
        ((rb.writePos + 1) &&& (N - 1)) = rb.readPos → RingBuffer.push N rb v = (rb, false)) ∧
    (∀ (k : Nat) (b vs : List Int), vs.length = 2 ^ k - 1 →
        (pushList (2 ^ k) ⟨some b, 0, 0⟩ vs).2 = true ∧
        (((pushList (2 ^ k) ⟨some b, 0, 0⟩ vs).1.writePos + 1) &&& (2 ^ k - 1))
          = (pushList (2 ^ k) ⟨some b, 0, 0⟩ vs).1.readPos ∧
        RingBuffer.availableForRead (2 ^ k) (pushList (2 ^ k) ⟨some b, 0, 0⟩ vs).1
          = 2 ^ k - 1) := by
  constructor
  · intro N rb v hfull
    simp only [RingBuffer.push]
    cases hb : rb.buffer with
    | none => rfl
    | some b => simp [hfull]
  · intro k b vs hlen
    have hpos : 0 < 2 ^ k := Nat.pos_pow_of_pos k (by omega)
    obtain ⟨b2, hb2⟩ := pushList_fill k vs 0 b (by omega)
    rw [hb2]
    refine ⟨rfl, ?_, ?_⟩
    · show (0 + vs.length + 1) &&& (2 ^ k - 1) = 0
      rw [Nat.and_pow_two_sub_one_eq_mod]
      have : 0 + vs.length + 1 = 2 ^ k := by omega
      rw [this, Nat.mod_self]
    · show RingBuffer.availableForRead (2 ^ k) ⟨some b2, 0, 0 + vs.length⟩ = 2 ^ k - 1
      simp only [RingBuffer.availableForRead]
      rw [Nat.and_pow_two_sub_one_eq_mod]
      have h1 : 0 + vs.length + 2 ^ k - 0 = (2 ^ k - 1) + 2 ^ k := by omega
      rw [h1, Nat.add_mod_right]
      exact Nat.mod_eq_of_lt (by omega)

theorem ringBuffer_push_full_noop_witness :
    RingBuffer.push 4 ⟨some [0, 0, 0, 0], 0, 3⟩ 5 = (⟨some [0, 0, 0, 0], 0, 3⟩, false) ∧
    (pushList (2 ^ 2) ⟨some [9, 9, 9, 9], 0, 0⟩ [1, 2, 3]).2 = true :=
  ⟨ringBuffer_push_full_noop.1 4 ⟨some [0, 0, 0, 0], 0, 3⟩ 5 (by decide),
   (ringBuffer_push_full_noop.2 2 [9, 9, 9, 9] [1, 2, 3] (by decide)).1⟩

/-- C7 as stated is false: a pop immediately following a successful push (with
no pops in between) returns the oldest stored sample, not the value just
pushed, whenever the buffer was non-empty before the push. Concretely, on a
capacity-4 buffer, push 1 then push 2 both succeed, and the pop that
immediately follows the successful push of 2 returns 1, not 2. -/
theorem ringBuffer_pop_after_push_counterexample :
    (RingBuffer.push 4 ⟨some [0, 0, 0, 0], 0, 0⟩ 1).2 = true ∧
    (RingBuffer.push 4 (RingBuffer.push 4 ⟨some [0, 0, 0, 0], 0, 0⟩ 1).1 2).2 = true ∧
    (RingBuffer.pop 4 (RingBuffer.push 4
        (RingBuffer.push 4 ⟨some [0, 0, 0, 0], 0, 0⟩ 1).1 2).1).1 = 1 ∧
    (1 : Int) ≠ 2 := by decide

theorem getD_set_self (l : List Int) (i : Nat) (v : Int) (h : i < l.length) :
    (l.set i v).getD i 0 = v := by
  induction l generalizing i with
  | nil => simp at h
  | cons a t ih =>
    cases i with
    | zero => rfl
    | succ n => simpa using ih n (by simpa using h)

/-- C7 amended: a pop immediately following a successful push into an empty
buffer (readPos = writePos, in-range) returns the value just pushed. -/
theorem ringBuffer_pop_after_push_empty (N : Nat) (rb : RingBuffer) (b : List Int) (v : Int)
    (hb : rb.buffer = some b) (hw : rb.writePos < b.length)
    (hempty : rb.readPos = rb.writePos)
    (hok : (RingBuffer.push N rb v).2 = true) :
    (RingBuffer.pop N (RingBuffer.push N rb v).1).1 = v := by
  simp only [RingBuffer.push, hb] at hok ⊢
  by_cases hc : ((rb.writePos + 1) &&& (N - 1)) = rb.readPos
  · simp [hc] at hok
  · rw [if_neg hc] at hok ⊢
    simp only [RingBuffer.pop]
    rw [hempty]
    exact getD_set_self b rb.writePos v hw

theorem ringBuffer_pop_after_push_empty_witness :
    (RingBuffer.pop 4 (RingBuffer.push 4 ⟨some [7, 7, 7, 7], 2, 2⟩ 42).1).1 = 42 :=
  ringBuffer_pop_after_push_empty 4 ⟨some [7, 7, 7, 7], 2, 2⟩ [7, 7, 7, 7] 42 rfl
    (by decide) rfl (by decide)

/-- C10: pop performs no emptiness check: on an empty buffer (readPos =
writePos, in range, non-null backing store of size 2^k) it returns the stale
sample stored at readPos and advances readPos by one modulo capacity, after
which availableForRead is 2^k - 1 (the buffer appears almost full). -/
theorem ringBuffer_pop_empty_behavior (k : Nat) (rb : RingBuffer) (b : List Int)
    (hb : rb.buffer = some b) (hempty : rb.readPos = rb.writePos)
    (hr : rb.readPos < 2 ^ k) :
    RingBuffer.pop (2 ^ k) rb
      = (b.getD rb.readPos 0, { rb with readPos := (rb.readPos + 1) &&& (2 ^ k - 1) }) ∧
    RingBuffer.availableForRead (2 ^ k) (RingBuffer.pop (2 ^ k) rb).2 = 2 ^ k - 1 := by
  have hpop : RingBuffer.pop (2 ^ k) rb
      = (b.getD rb.readPos 0, { rb with readPos := (rb.readPos + 1) &&& (2 ^ k - 1) }) := by
    simp only [RingBuffer.pop, hb]
  refine ⟨hpop, ?_⟩
  rw [hpop]
  simp only [RingBuffer.availableForRead, hb]
  rw [Nat.and_pow_two_sub_one_eq_mod, Nat.and_pow_two_sub_one_eq_mod]
  have hpos : 0 < 2 ^ k := Nat.pos_pow_of_pos k (by omega)
  rcases Nat.lt_or_ge (rb.readPos + 1) (2 ^ k) with hlt | hge
  · rw [Nat.mod_eq_of_lt hlt]
    have h1 : rb.writePos + 2 ^ k - (rb.readPos + 1) = 2 ^ k - 1 := by omega
    rw [h1]
    exact Nat.mod_eq_of_lt (by omega)
  · have heq : rb.readPos + 1 = 2 ^ k := by omega
    rw [heq, Nat.mod_self]
    have h1 : rb.writePos + 2 ^ k - 0 = rb.writePos + 2 ^ k := by omega
    rw [h1, Nat.add_mod_right]
    have h2 : rb.writePos = 2 ^ k - 1 := by omega
    rw [h2]
    exact Nat.mod_eq_of_lt (by omega)

theorem ringBuffer_pop_empty_behavior_witness :
    RingBuffer.pop (2 ^ 2) ⟨some [5, 6, 7, 8], 1, 1⟩
      = (([5, 6, 7, 8] : List Int).getD 1 0,
         { (⟨some [5, 6, 7, 8], 1, 1⟩ : RingBuffer) with readPos := (1 + 1) &&& (2 ^ 2 - 1) }) ∧
    RingBuffer.availableForRead (2 ^ 2)
      (RingBuffer.pop (2 ^ 2) ⟨some [5, 6, 7, 8], 1, 1⟩).2 = 2 ^ 2 - 1 :=
  ringBuffer_pop_empty_behavior 2 ⟨some [5, 6, 7, 8], 1, 1⟩ [5, 6, 7, 8] rfl rfl (by decide)

/- ==================== ADTS header synthesis (mp4_parser.cpp) ==================== -/

/- The frequency index ladder from generateAdtsHeader; the C code initialises
freqIdx to 4 ("Default 44100") and the if / else-if chain leaves that default
in place for rates below the lowest threshold 12000. -/
def adtsFreqIdx (sampleRate : Nat) : Nat :=
  if 96000 ≤ sampleRate then 0
  else if 88200 ≤ sampleRate then 1
  else if 64000 ≤ sampleRate then 2
  else if 48000 ≤ sampleRate then 3
  else if 44100 ≤ sampleRate then 4
  else if 32000 ≤ sampleRate then 5
  else if 24000 ≤ sampleRate then 6
  else if 22050 ≤ sampleRate then 7
  else if 16000 ≤ sampleRate then 8
  else if 12000 ≤ sampleRate then 9
  else 4

/- The 7 header bytes written by generateAdtsHeader; each store is into a
uint8_t, hence the mod-256 reductions. The profile argument is unused by the
source (the profile bits are hardcoded to 1, LC). -/
def generateAdtsHeader (len profile sampleRate channels : Nat) : List Nat :=
  let freqIdx := adtsFreqIdx sampleRate
  [0xFF, 0xF1,
   ((1 <<< 6) ||| (freqIdx <<< 2) ||| ((channels >>> 2) &&& 1)) % 256,
   (((channels &&& 3) <<< 6) ||| (len >>> 11)) % 256,
   (len >>> 3) &&& 255,
   (((len &&& 7) <<< 5) ||| 31) % 256,
   0xFC]

/-- C3 as stated is false: for an input rate of 8000 (below the lowest
threshold 12000) the frequency index written into the header is the default 4
(the 44100 bucket), not 9 (the lowest bucket). -/
theorem adtsFreqIdx_low_rate_counterexample :
    adtsFreqIdx 8000 = 4 ∧ adtsFreqIdx 8000 ≠ 9 ∧
    (((generateAdtsHeader 17 2 8000 2).getD 2 0) >>> 2) &&& 15 = 4 := by decide

theorem adts_byte2_extract :
    ∀ fi c2 : Nat, fi ≤ 9 → c2 ≤ 1 →
      ((((1 <<< 6) ||| (fi <<< 2) ||| c2) % 256) >>> 2) &&& 15 = fi := by
  intro fi c2 h9 h1
  interval_cases fi <;> interval_cases c2 <;> rfl

theorem adtsFreqIdx_le_nine (r : Nat) : adtsFreqIdx r ≤ 9 := by
  unfold adtsFreqIdx
  split_ifs <;> omega

/-- C3 amended: the sampling-frequency index encoded in bits 2..5 of header
byte 2 matches the descending threshold ladder at the documented boundaries
44100 (index 4) and 22050 (index 7); rates below the lowest threshold 12000
fall through to the DEFAULT index 4 (the 44100 bucket), not to the lowest
bucket: the boundary 12000 itself yields 9, while 8000 yields 4. -/
theorem adtsFreqIdx_thresholds :
    (∀ len channels, (((generateAdtsHeader len 2 44100 channels).getD 2 0) >>> 2) &&& 15 = 4) ∧
    (∀ len channels, (((generateAdtsHeader len 2 22050 channels).getD 2 0) >>> 2) &&& 15 = 7) ∧
    (∀ r, r < 12000 → adtsFreqIdx r = 4) ∧
    adtsFreqIdx 44100 = 4 ∧ adtsFreqIdx 22050 = 7 ∧
    adtsFreqIdx 12000 = 9 ∧ adtsFreqIdx 8000 = 4 := by
  have hc2 : ∀ channels : Nat, (channels >>> 2) &&& 1 ≤ 1 := fun channels => Nat.and_le_right
  refine ⟨?_, ?_, ?_, by decide, by decide, by decide, by decide⟩
  · intro len channels
    simp only [generateAdtsHeader, List.getD_cons_succ, List.getD_cons_zero]
    have h4 : adtsFreqIdx 44100 = 4 := by decide
    rw [h4]
    exact adts_byte2_extract 4 _ (by omega) (hc2 channels)
  · intro len channels
    simp only [generateAdtsHeader, List.getD_cons_succ, List.getD_cons_zero]
    have h7 : adtsFreqIdx 22050 = 7 := by decide
    rw [h7]
    exact adts_byte2_extract 7 _ (by omega) (hc2 channels)
  · intro r hr
    unfold adtsFreqIdx
    split_ifs <;> omega

theorem adtsFreqIdx_thresholds_witness :
    (((generateAdtsHeader 17 2 44100 2).getD 2 0) >>> 2) &&& 15 = 4 ∧
    adtsFreqIdx 11999 = 4 :=
  ⟨adtsFreqIdx_thresholds.1 17 2, adtsFreqIdx_thresholds.2.2.1 11999 (by decide)⟩

/- ==================== MP4/M4A container parser (mp4_parser.cpp) ==================== -/

/- uint32_t arithmetic. -/
def m32 (x : Nat) : Nat := x % 4294967296

/- Byte of the file at an absolute offset; reads past the end yield 0. -/
def byteAt (f : List Nat) (p : Nat) : Nat := (f.getD p 0) % 256

/- readUI32BE: four file bytes combined big-endian, as in the source
(buf[0] << 24) | (buf[1] << 16) | (buf[2] << 8) | buf[3]. -/
def rd32 (f : List Nat) (p : Nat) : Nat :=
  (byteAt f p) <<< 24 ||| (byteAt f (p + 1)) <<< 16 ||| (byteAt f (p + 2)) <<< 8
    ||| byteAt f (p + 3)

/- The parser object state. The file handles, usingFlash flag and the unused
STSC cursor fields (stscCount, stscIndex, nextChunkRunStart — declared but
never assigned or read in the source) are not modelled; the file is passed
explicitly to each operation. -/
structure MP4Parser where
  stszOffset : Nat
  stcoOffset : Nat
  stscOffset : Nat
  mdatOffset : Nat
  sampleRate : Nat
  channels : Nat
  currentSample : Nat
  currentChunk : Nat
  samplesInCurrentChunk : Nat
  samplesReadInChunk : Nat
  currentOffset : Nat
deriving DecidableEq

/- Constructor state. The cursor fields currentChunk, samplesInCurrentChunk,
samplesReadInChunk and currentOffset are uninitialised in the C constructor;
0 is chosen for them here (openFile assigns all of them before a successful
return). -/
def MP4Parser.init : MP4Parser :=
  { stszOffset := 0, stcoOffset := 0, stscOffset := 0, mdatOffset := 0,
    sampleRate := 44100, channels := 2, currentSample := 0,
    currentChunk := 0, samplesInCurrentChunk := 0, samplesReadInChunk := 0,
    currentOffset := 0 }

/- parseStsd, entered with the file position p just after the stsd box
header. Position bookkeeping from the source: skip 8 (version/flags/count),
read entry size and format, and for an mp4a entry skip to the channel word at
p+32 and the 16.16 fixed-point sample-rate word at p+40, keeping only the
upper 16 bits of each; the channel count is stored into a uint8_t field. -/
def parseStsd (f : List Nat) (p : Nat) (s : MP4Parser) : Bool × MP4Parser :=
  let format := rd32 f (m32 (p + 12))
  if format = 0x6D703461 then
    (true, { s with channels := ((rd32 f (m32 (p + 32))) >>> 16) % 256,
                    sampleRate := (rd32 f (m32 (p + 40))) >>> 16 })
  else (false, s)

/- The stbl child loop of parseTrak (loop counter c4 < 100 in the source is
the fuel argument here; the third result component is the number of
iterations executed). Each table box records its own start offset
getPos() - 8 = cur; the next sibling is at getPos() + s4 - 8 = cur + s4 in
uint32 arithmetic. -/
def stblLoop (f : List Nat) (endP : Nat) (s : MP4Parser) (cur : Nat) : Nat → MP4Parser × Nat
  | 0 => (s, 0)
  | fuel + 1 =>
    if cur < endP then
      let s4 := rd32 f cur
      let t4 := rd32 f (m32 (cur + 4))
      if s4 < 8 then (s, 1)
      else
        let nextStblChild := m32 (cur + s4)
        let s1 :=
          if t4 = 0x7374737A then { s with stszOffset := cur }
          else if t4 = 0x7374636F then { s with stcoOffset := cur }
          else if t4 = 0x73747363 then { s with stscOffset := cur }
          else if t4 = 0x73747364 then (parseStsd f (m32 (cur + 8)) s).2
          else s
        let r := stblLoop f endP s1 nextStblChild fuel
        (r.1, r.2 + 1)
    else (s, 0)

/- The minf child loop (counter c3 < 100). -/
def minfLoop (f : List Nat) (endP : Nat) (s : MP4Parser) (cur : Nat) : Nat → MP4Parser × Nat
  | 0 => (s, 0)
  | fuel + 1 =>
    if cur < endP then
      let s3 := rd32 f cur
      let t3 := rd32 f (m32 (cur + 4))
      if s3 < 8 then (s, 1)
      else
        let nextMinfChild := m32 (cur + s3)
        let s1 :=
          if t3 = 0x7374626C then (stblLoop f (m32 (cur + s3)) s (m32 (cur + 8)) 100).1
          else s
        let r := minfLoop f endP s1 nextMinfChild fuel
        (r.1, r.2 + 1)
    else (s, 0)

/- The mdia child loop (counter c2 < 100). A hdlr box sets isAudio when its
handler subtype, read at box start + 16, is the four characters soun. -/
def mdiaLoop (f : List Nat) (endP : Nat) (s : MP4Parser) (isAudio : Bool) (cur : Nat) :
    Nat → MP4Parser × Bool × Nat
  | 0 => (s, isAudio, 0)
  | fuel + 1 =>
    if cur < endP then
      let s2 := rd32 f cur
      let t2 := rd32 f (m32 (cur + 4))
      if s2 < 8 then (s, isAudio, 1)
      else
        let nextMdiaChild := m32 (cur + s2)
        let sa :=
          if t2 = 0x68646C72 then
            (s, if rd32 f (m32 (cur + 16)) = 0x736F756E then true else isAudio)
          else if t2 = 0x6D696E66 then
            ((minfLoop f (m32 (cur + s2)) s (m32 (cur + 8)) 100).1, isAudio)
          else (s, isAudio)
        let r := mdiaLoop f endP sa.1 sa.2 nextMdiaChild fuel
        (r.1, r.2.1, r.2.2 + 1)
    else (s, isAudio, 0)

/- The trak child loop (counter count < 500). -/
def trakLoop (f : List Nat) (endP : Nat) (s : MP4Parser) (isAudio : Bool) (cur : Nat) :
    Nat → MP4Parser × Bool × Nat
  | 0 => (s, isAudio, 0)
  | fuel + 1 =>
    if cur < endP then
      let size := rd32 f cur
      let ty := rd32 f (m32 (cur + 4))
      if size < 8 then (s, isAudio, 1)
      else
        let nextAtomPos := m32 (cur + size)
        let sa :=
          if ty = 0x6D646961 then
            let r := mdiaLoop f (m32 (cur + size)) s isAudio (m32 (cur + 8)) 100
            (r.1, r.2.1)
          else (s, isAudio)
        let r := trakLoop f endP sa.1 sa.2 nextAtomPos fuel
        (r.1, r.2.1, r.2.2 + 1)
    else (s, isAudio, 0)

/- parseTrak, entered at position p with content size atomSize. It resets the
three table offsets, walks its children, and accepts only when the track is
audio-typed AND all three table offsets were found. The third result
component is the number of loop iterations executed. -/
def parseTrak (f : List Nat) (p : Nat) (atomSize : Nat) (s : MP4Parser) :
    Bool × MP4Parser × Nat :=
  let s0 := { s with stszOffset := 0, stcoOffset := 0, stscOffset := 0 }
  let r := trakLoop f (m32 (p + atomSize)) s0 false p 500
  (r.2.1 && (r.1.stszOffset != 0) && (r.1.stcoOffset != 0) && (r.1.stscOffset != 0), r.1, r.2.2)

/- The moov child loop (counter count < 500): on an accepted trak it returns
true immediately; otherwise it keeps the state the trak left behind and moves
to the next sibling. -/
def moovLoop (f : List Nat) (endP : Nat) (s : MP4Parser) (cur : Nat) :
    Nat → Bool × MP4Parser × Nat
  | 0 => (false, s, 0)
  | fuel + 1 =>
    if cur < endP then
      let size := rd32 f cur
      let ty := rd32 f (m32 (cur + 4))
      if size < 8 then (false, s, 1)
      else
        let nextAtomPos := m32 (cur + size)
        if ty = 0x7472616B then
          let t := parseTrak f (m32 (cur + 8)) (size - 8) s
          if t.1 then (true, t.2.1, 1)
          else
            let r := moovLoop f endP t.2.1 nextAtomPos fuel
            (r.1, r.2.1, r.2.2 + 1)
        else
          let r := moovLoop f endP s nextAtomPos fuel
          (r.1, r.2.1, r.2.2 + 1)
    else (false, s, 0)

def parseMoov (f : List Nat) (p : Nat) (atomSize : Nat) (s : MP4Parser) :
    Bool × MP4Parser × Nat :=
  moovLoop f (m32 (p + atomSize)) s p 500

/- The top-level atom scan of open (counter atomCount < 1000 is the fuel; the
third result component counts iterations). A size-0 atom means rest of file
and ends the scan; size 1 switches to the 64-bit form of which only the low
word is honoured; any other size below 8 is corrupt and aborts; after a moov
atom moovFound is set regardless of whether a track was accepted. -/
def openScanLoop (f : List Nat) (fileSize : Nat) (s : MP4Parser) (moovFound : Bool)
    (pos : Nat) : Nat → Bool × MP4Parser × Nat
  | 0 => (moovFound, s, 0)
  | fuel + 1 =>
    if pos < fileSize then
      let atomSize := rd32 f pos
      let atomType := rd32 f (m32 (pos + 4))
      if atomSize = 0 then (moovFound, s, 1)
      else
        let sc := if atomSize = 1 then (rd32 f (m32 (pos + 12)), m32 (pos + 16))
                  else (atomSize, m32 (pos + 8))
        if sc.1 < 8 then (moovFound, s, 1)
        else
          let ms :=
            if atomType = 0x6D6F6F76 then (true, (parseMoov f sc.2 (sc.1 - 8) s).2.1)
            else if atomType = 0x6D646174 then
              (moovFound, { s with mdatOffset := m32 (pos + 8) })
            else (moovFound, s)
          let pos2 := m32 (pos + sc.1)
          if fileSize < pos2 then (ms.1, ms.2, 1)
          else
            let r := openScanLoop f fileSize ms.2 ms.1 pos2 fuel
            (r.1, r.2.1, r.2.2 + 1)
    else (moovFound, s, 0)

/- MP4Parser::open (named openFile here because open is a Lean keyword). The
filesystem open itself is not modelled; f is the opened file contents. State
relevant to a new file is reset, the atom scan runs, and on success the
reading state is seeded from the first sample-to-chunk run (samples per chunk
at stscOffset + 20) and the first chunk offset (at stcoOffset + 16). -/
def MP4Parser.openFile (f : List Nat) (s : MP4Parser) : Bool × MP4Parser :=
  let sR := { s with stszOffset := 0, stcoOffset := 0, stscOffset := 0, mdatOffset := 0,
                     currentSample := 0, currentChunk := 1, samplesReadInChunk := 0 }
  let r := openScanLoop f f.length sR false 0 1000
  if r.1 && (r.2.1.stszOffset != 0) && (r.2.1.stcoOffset != 0) && (r.2.1.stscOffset != 0) then
    (true, { r.2.1 with
              currentChunk := 1,
              samplesInCurrentChunk := rd32 f (m32 (r.2.1.stscOffset + 20)),
              currentOffset := rd32 f (m32 (r.2.1.stcoOffset + 16)) })
  else (false, r.2.1)

/- The sample-to-chunk rescan loop in readNextFrame: entries of 12 bytes
(firstChunk, samplesPerChunk, sampleDescId) starting at p; the loop keeps the
samplesPerChunk of each entry whose firstChunk is not past the current chunk
and stops at the first entry beyond it. -/
def stscScan (f : List Nat) (p : Nat) (chunk : Nat) (acc : Nat) : Nat → Nat
  | 0 => acc
  | n + 1 =>
    let firstChunk := rd32 f p
    let samplesPer := rd32 f (m32 (p + 4))
    if chunk < firstChunk then acc
    else stscScan f (m32 (p + 12)) chunk samplesPer n

/- MP4Parser::readNextFrame. Returns the byte count written (0 on failure),
the new parser state, and the bytes written into the caller's buffer (the
7-byte synthesized header followed by the frame payload read at the resolved
absolute offset). The frameSize + 7 comparison and all cursor updates are
uint32 arithmetic. -/
def MP4Parser.readNextFrame (f : List Nat) (s : MP4Parser) (bufferSize : Nat) :
    Nat × MP4Parser × List Nat :=
  if s.stszOffset = 0 then (0, s, [])
  else
    let defaultSize := rd32 f (m32 (s.stszOffset + 12))
    let count := rd32 f (m32 (s.stszOffset + 16))
    if count ≤ s.currentSample then (0, s, [])
    else
      let frameSize :=
        if defaultSize = 0 then rd32 f (m32 (s.stszOffset + 20 + s.currentSample * 4))
        else defaultSize
      if bufferSize < m32 (frameSize + 7) then (0, s, [])
      else
        let s1 :=
          if s.samplesInCurrentChunk ≤ s.samplesReadInChunk then
            let chunk := m32 (s.currentChunk + 1)
            let off := rd32 f (m32 (s.stcoOffset + 16 + (m32 (chunk + 4294967295)) * 4))
            let entryCount := rd32 f (m32 (s.stscOffset + 12))
            let sic := stscScan f (m32 (s.stscOffset + 16)) chunk s.samplesInCurrentChunk
              entryCount
            { s with currentChunk := chunk, samplesReadInChunk := 0,
                     currentOffset := off, samplesInCurrentChunk := sic }
          else s
        let hdr := generateAdtsHeader (m32 (frameSize + 7)) 2 s.sampleRate s.channels
        let payload := (List.range frameSize).map (fun j => byteAt f (m32 (s1.currentOffset + j)))
        (m32 (frameSize + 7),
         { s1 with currentOffset := m32 (s1.currentOffset + frameSize),
                   currentSample := m32 (s1.currentSample + 1),
                   samplesReadInChunk := m32 (s1.samplesReadInChunk + 1) },
         hdr ++ payload)

/- Iterated calls to readNextFrame: the parser state after i calls. -/
def nthState (f : List Nat) (bufferSize : Nat) (s : MP4Parser) : Nat → MP4Parser
  | 0 => s
  | i + 1 => (MP4Parser.readNextFrame f (nthState f bufferSize s i) bufferSize).2.1

/- Arithmetic helpers for the uint32 model. -/

theorem m32_eq_of_lt {x : Nat} (h : x < 4294967296) : m32 x = x := Nat.mod_eq_of_lt h

theorem m32_add_left (a b : Nat) : m32 (m32 a + b) = m32 (a + b) := by
  simp [m32, Nat.mod_add_mod]

theorem byteAt_lt (f : List Nat) (p : Nat) : byteAt f p < 256 :=
  Nat.mod_lt _ (by omega)

theorem rd32_lt (f : List Nat) (p : Nat) : rd32 f p < 4294967296 := by
  have h0 := byteAt_lt f p
  have h1 := byteAt_lt f (p + 1)
  have h2 := byteAt_lt f (p + 2)
  have h3 := byteAt_lt f (p + 3)
  have e24 : (2 : Nat) ^ 24 = 16777216 := by norm_num
  have e16 : (2 : Nat) ^ 16 = 65536 := by norm_num
  have e8 : (2 : Nat) ^ 8 = 256 := by norm_num
  have e32 : (4294967296 : Nat) = 2 ^ 32 := by norm_num
  unfold rd32
  rw [e32]
  apply Nat.or_lt_two_pow
  · apply Nat.or_lt_two_pow
    · apply Nat.or_lt_two_pow
      · rw [Nat.shiftLeft_eq, e24]; omega
      · rw [Nat.shiftLeft_eq, e16]; omega
    · rw [Nat.shiftLeft_eq, e8]; omega
  · omega

theorem rd32_nil (p : Nat) : rd32 [] p = 0 := by
  simp [rd32, byteAt, List.getD]

/- Concrete states and files for the oversized-frame scenario: a sample-size
table at offset 4 whose shared sample size is 2^32 - 1 (respectively
2^32 - 7) with a stored sample count of 1. -/

def fileOverflow : List Nat :=
  [0, 0, 0, 0, 0, 0, 0, 0, 0, 0, 0, 0, 0, 0, 0, 0,
   0xFF, 0xFF, 0xFF, 0xFF, 0, 0, 0, 1]

def fileOverflowB : List Nat :=
  [0, 0, 0, 0, 0, 0, 0, 0, 0, 0, 0, 0, 0, 0, 0, 0,
   0xFF, 0xFF, 0xFF, 0xF9, 0, 0, 0, 1]

def stOverflow : MP4Parser :=
  { stszOffset := 4, stcoOffset := 0, stscOffset := 0, mdatOffset := 0,
    sampleRate := 44100, channels := 2, currentSample := 0, currentChunk := 1,
    samplesInCurrentChunk := 1, samplesReadInChunk := 0, currentOffset := 0 }

/-- C8 as stated is false in the 32-bit corner: the oversized-frame guard
frameSize + 7 > bufferSize is computed in uint32 arithmetic, so for a frame
size of 2^32 - 1 (mathematically far larger than the 100-byte buffer) the sum
wraps to 6, the guard passes, and the call returns 6 rather than 0; and for a
frame size of 2^32 - 7 the wrapped sum is 0, so the call returns 0 while
still advancing the playback cursor (currentSample becomes 1). -/
theorem readNextFrame_overflow_counterexample :
    rd32 fileOverflow (m32 (stOverflow.stszOffset + 12)) = 4294967295 ∧
    (100 : Nat) < 4294967295 + 7 ∧
    (MP4Parser.readNextFrame fileOverflow stOverflow 100).1 = 6 ∧
    (6 : Nat) ≠ 0 ∧
    (MP4Parser.readNextFrame fileOverflowB stOverflow 100).1 = 0 ∧
    (MP4Parser.readNextFrame fileOverflowB stOverflow 100).2.1.currentSample = 1 ∧
    stOverflow.currentSample = 0 :=
  ⟨rfl, by omega, rfl, by omega, rfl, rfl, rfl⟩

/-- C8 amended: provided the frame size F determined from the sample-size
table does not overflow the 32-bit frameSize + 7 computation, readNextFrame
returns 0 exactly on the failure paths the claim lists that are visible in
this model — parser not successfully opened (stszOffset = 0), current sample
number at or past the stored sample count, or F + 7 exceeding bufferSize —
and every call that returns 0 leaves the parser state, hence the whole
playback cursor, unchanged. -/
theorem readNextFrame_failure_paths (f : List Nat) (s : MP4Parser) (bufferSize F : Nat)
    (hF : F = (if rd32 f (m32 (s.stszOffset + 12)) = 0
               then rd32 f (m32 (s.stszOffset + 20 + s.currentSample * 4))
               else rd32 f (m32 (s.stszOffset + 12))))
    (hov : F + 7 < 4294967296) :
    ((MP4Parser.readNextFrame f s bufferSize).1 = 0 ↔
      (s.stszOffset = 0 ∨ rd32 f (m32 (s.stszOffset + 16)) ≤ s.currentSample ∨
        bufferSize < F + 7)) ∧
    ((MP4Parser.readNextFrame f s bufferSize).1 = 0 →
      (MP4Parser.readNextFrame f s bufferSize).2.1 = s) := by
  by_cases h1 : s.stszOffset = 0
  · simp [MP4Parser.readNextFrame, h1]
  · by_cases h2 : rd32 f (m32 (s.stszOffset + 16)) ≤ s.currentSample
    · simp [MP4Parser.readNextFrame, h1, h2]
    · have hms : m32 (F + 7) = F + 7 := m32_eq_of_lt hov
      by_cases h3 : bufferSize < F + 7
      · have : MP4Parser.readNextFrame f s bufferSize = (0, s, []) := by
          simp only [MP4Parser.readNextFrame, if_neg h1]
          rw [if_neg (by omega)]
          rw [← hF, hms, if_pos h3]
        simp [this, h1, h2, h3]
      · have hr1 : (MP4Parser.readNextFrame f s bufferSize).1 = F + 7 := by
          simp only [MP4Parser.readNextFrame, if_neg h1]
          rw [if_neg (by omega)]
          rw [← hF, hms, if_neg h3]
        constructor
        · rw [hr1]
          constructor
          · intro h; omega
          · intro h; rcases h with h | h | h <;> [exact absurd h h1; omega; omega]
        · intro h; rw [hr1] at h; omega

theorem readNextFrame_failure_paths_witness :
    ((MP4Parser.readNextFrame [] MP4Parser.init 0).1 = 0 ↔
      (MP4Parser.init.stszOffset = 0 ∨
        rd32 [] (m32 (MP4Parser.init.stszOffset + 16)) ≤ MP4Parser.init.currentSample ∨
        (0 : Nat) < 0 + 7)) ∧
    ((MP4Parser.readNextFrame [] MP4Parser.init 0).1 = 0 →
      (MP4Parser.readNextFrame [] MP4Parser.init 0).2.1 = MP4Parser.init) :=
  readNextFrame_failure_paths [] MP4Parser.init 0 0 (by rfl) (by omega)

/- A minimal well-formed container: one moov holding one trak / mdia with an
audio hdlr (subtype soun) and a minf / stbl carrying stsz (shared size 10,
count 6), stco (3 chunk offsets 144, 164, 184) and stsc (one run: 2 samples
per chunk from chunk 1), followed by an mdat with 60 payload bytes. -/
def fileAudio : List Nat :=
  [0, 0, 0, 136, 0x6D, 0x6F, 0x6F, 0x76,
   0, 0, 0, 128, 0x74, 0x72, 0x61, 0x6B,
   0, 0, 0, 120, 0x6D, 0x64, 0x69, 0x61,
   0, 0, 0, 20, 0x68, 0x64, 0x6C, 0x72, 0, 0, 0, 0, 0, 0, 0, 0, 0x73, 0x6F, 0x75, 0x6E,
   0, 0, 0, 92, 0x6D, 0x69, 0x6E, 0x66,
   0, 0, 0, 84, 0x73, 0x74, 0x62, 0x6C,
   0, 0, 0, 20, 0x73, 0x74, 0x73, 0x7A, 0, 0, 0, 0, 0, 0, 0, 10, 0, 0, 0, 6,
   0, 0, 0, 28, 0x73, 0x74, 0x63, 0x6F, 0, 0, 0, 0, 0, 0, 0, 3,
     0, 0, 0, 144, 0, 0, 0, 164, 0, 0, 0, 184,
   0, 0, 0, 28, 0x73, 0x74, 0x73, 0x63, 0, 0, 0, 0, 0, 0, 0, 1,
     0, 0, 0, 1, 0, 0, 0, 2, 0, 0, 0, 1,
   0, 0, 0, 68, 0x6D, 0x64, 0x61, 0x74,
   1, 2, 3, 4, 5, 6, 7, 8, 9, 10, 11, 12, 13, 14, 15, 16, 17, 18, 19, 20,
   21, 22, 23, 24, 25, 26, 27, 28, 29, 30, 31, 32, 33, 34, 35, 36, 37, 38, 39, 40,
   41, 42, 43, 44, 45, 46, 47, 48, 49, 50, 51, 52, 53, 54, 55, 56, 57, 58, 59, 60]

/- The same container with the single track made non-audio: its hdlr subtype
is vide instead of soun. -/
def fileNonAudio : List Nat :=
  [0, 0, 0, 136, 0x6D, 0x6F, 0x6F, 0x76,
   0, 0, 0, 128, 0x74, 0x72, 0x61, 0x6B,
   0, 0, 0, 120, 0x6D, 0x64, 0x69, 0x61,
   0, 0, 0, 20, 0x68, 0x64, 0x6C, 0x72, 0, 0, 0, 0, 0, 0, 0, 0, 0x76, 0x69, 0x64, 0x65,
   0, 0, 0, 92, 0x6D, 0x69, 0x6E, 0x66,
   0, 0, 0, 84, 0x73, 0x74, 0x62, 0x6C,
   0, 0, 0, 20, 0x73, 0x74, 0x73, 0x7A, 0, 0, 0, 0, 0, 0, 0, 10, 0, 0, 0, 6,
   0, 0, 0, 28, 0x73, 0x74, 0x63, 0x6F, 0, 0, 0, 0, 0, 0, 0, 3,
     0, 0, 0, 144, 0, 0, 0, 164, 0, 0, 0, 184,
   0, 0, 0, 28, 0x73, 0x74, 0x73, 0x63, 0, 0, 0, 0, 0, 0, 0, 1,
     0, 0, 0, 1, 0, 0, 0, 2, 0, 0, 0, 1,
   0, 0, 0, 68, 0x6D, 0x64, 0x61, 0x74,
   1, 2, 3, 4, 5, 6, 7, 8, 9, 10, 11, 12, 13, 14, 15, 16, 17, 18, 19, 20,
   21, 22, 23, 24, 25, 26, 27, 28, 29, 30, 31, 32, 33, 34, 35, 36, 37, 38, 39, 40,
   41, 42, 43, 44, 45, 46, 47, 48, 49, 50, 51, 52, 53, 54, 55, 56, 57, 58, 59, 60]

set_option maxRecDepth 8000 in
/-- C2 as stated is false: fileNonAudio holds a single track whose handler
subtype is vide, and no four bytes anywhere in the file (nor any read past
its end, which yields 0) decode to soun, so the file has no audio-typed
track; parseTrak accordingly rejects the track, yet openFile still returns
true, because parseTrak records the three table offsets before the handler
check and openFile only tests moovFound and nonzero table offsets. -/
theorem open_accepts_nonaudio_counterexample :
    (MP4Parser.openFile fileNonAudio MP4Parser.init).1 = true ∧
    (parseTrak fileNonAudio 16 120 MP4Parser.init).1 = false ∧
    ((List.range fileNonAudio.length).all (fun q => rd32 fileNonAudio q != 0x736F756E))
      = true := by
  refine ⟨rfl, rfl, ?_⟩
  rfl

theorem mdiaLoop_no_soun (f : List Nat) (hns : ∀ q, rd32 f q ≠ 0x736F756E) (e : Nat) :
    ∀ (fuel : Nat) (s : MP4Parser) (cur : Nat),
      (mdiaLoop f e s false cur fuel).2.1 = false := by
  intro fuel
  induction fuel with
  | zero => intro s cur; rfl
  | succ n ih =>
    intro s cur
    simp only [mdiaLoop]
    by_cases h1 : cur < e
    · rw [if_pos h1]
      by_cases h2 : rd32 f cur < 8
      · rw [if_pos h2]
      · rw [if_neg h2]
        by_cases h3 : rd32 f (m32 (cur + 4)) = 0x68646C72
        · rw [if_pos h3, if_neg (hns (m32 (cur + 16)))]
          exact ih _ _
        · rw [if_neg h3]
          by_cases h4 : rd32 f (m32 (cur + 4)) = 0x6D696E66
          · rw [if_pos h4]
            exact ih _ _
          · rw [if_neg h4]
            exact ih _ _
    · rw [if_neg h1]

theorem trakLoop_no_soun (f : List Nat) (hns : ∀ q, rd32 f q ≠ 0x736F756E) (e : Nat) :
    ∀ (fuel : Nat) (s : MP4Parser) (cur : Nat),
      (trakLoop f e s false cur fuel).2.1 = false := by
  intro fuel
  induction fuel with
  | zero => intro s cur; rfl
  | succ n ih =>
    intro s cur
    simp only [trakLoop]
    by_cases h1 : cur < e
    · rw [if_pos h1]
      by_cases h2 : rd32 f cur < 8
      · rw [if_pos h2]
      · rw [if_neg h2]
        by_cases h3 : rd32 f (m32 (cur + 4)) = 0x6D646961
        · rw [if_pos h3, mdiaLoop_no_soun f hns (m32 (cur + rd32 f cur)) 100 s (m32 (cur + 8))]
          exact ih _ _
        · rw [if_neg h3]
          exact ih _ _
    · rw [if_neg h1]

/-- C2 amended: openFile succeeds exactly when the atom scan found a metadata
box and left all three index-table offsets nonzero; parseTrak accepts a track
only if an audio handler was seen (in particular, for a file in which no
32-bit word anywhere reads soun, every track is rejected); but openFile does
not require any track to have been ACCEPTED, so a file whose only track is
non-audio but carries all three index tables is still opened successfully
(openFile_accepts_nonaudio exhibits one). -/
theorem open_success_characterization :
    (∀ (f : List Nat) (s : MP4Parser),
      (MP4Parser.openFile f s).1 = true ↔
        ((openScanLoop f f.length
            { s with stszOffset := 0, stcoOffset := 0, stscOffset := 0, mdatOffset := 0,
                     currentSample := 0, currentChunk := 1, samplesReadInChunk := 0 }
            false 0 1000).1 = true ∧
         (openScanLoop f f.length
            { s with stszOffset := 0, stcoOffset := 0, stscOffset := 0, mdatOffset := 0,
                     currentSample := 0, currentChunk := 1, samplesReadInChunk := 0 }
            false 0 1000).2.1.stszOffset ≠ 0 ∧
         (openScanLoop f f.length
            { s with stszOffset := 0, stcoOffset := 0, stscOffset := 0, mdatOffset := 0,
                     currentSample := 0, currentChunk := 1, samplesReadInChunk := 0 }
            false 0 1000).2.1.stcoOffset ≠ 0 ∧
         (openScanLoop f f.length
            { s with stszOffset := 0, stcoOffset := 0, stscOffset := 0, mdatOffset := 0,
                     currentSample := 0, currentChunk := 1, samplesReadInChunk := 0 }
            false 0 1000).2.1.stscOffset ≠ 0)) ∧
    (∀ (f : List Nat) (p sz : Nat) (s : MP4Parser),
      (∀ q, rd32 f q ≠ 0x736F756E) → (parseTrak f p sz s).1 = false) := by
  constructor
  · intro f s
    simp only [MP4Parser.openFile]
    split_ifs with h
    · simp only [Bool.and_eq_true, bne_iff_ne, ne_eq] at h
      simp only [true_iff]
      exact ⟨h.1.1.1, h.1.1.2, h.1.2, h.2⟩
    · simp only [Bool.and_eq_true, bne_iff_ne, ne_eq] at h
      constructor
      · intro hfalse; exact absurd hfalse (by simp)
      · intro hrhs
        exact absurd ⟨⟨⟨hrhs.1, hrhs.2.1⟩, hrhs.2.2.1⟩, hrhs.2.2.2⟩ h
  · intro f p sz s hns
    simp only [parseTrak]
    rw [trakLoop_no_soun f hns _ _ _ _]
    rfl

set_option maxRecDepth 8000 in
theorem open_success_characterization_witness :
    ((MP4Parser.openFile fileNonAudio MP4Parser.init).1 = true ↔
      ((openScanLoop fileNonAudio fileNonAudio.length
          { MP4Parser.init with stszOffset := 0, stcoOffset := 0, stscOffset := 0,
                                mdatOffset := 0, currentSample := 0, currentChunk := 1,
                                samplesReadInChunk := 0 }
          false 0 1000).1 = true ∧
       (openScanLoop fileNonAudio fileNonAudio.length
          { MP4Parser.init with stszOffset := 0, stcoOffset := 0, stscOffset := 0,
                                mdatOffset := 0, currentSample := 0, currentChunk := 1,
                                samplesReadInChunk := 0 }
          false 0 1000).2.1.stszOffset ≠ 0 ∧
       (openScanLoop fileNonAudio fileNonAudio.length
          { MP4Parser.init with stszOffset := 0, stcoOffset := 0, stscOffset := 0,
                                mdatOffset := 0, currentSample := 0, currentChunk := 1,
                                samplesReadInChunk := 0 }
          false 0 1000).2.1.stcoOffset ≠ 0 ∧
       (openScanLoop fileNonAudio fileNonAudio.length
          { MP4Parser.init with stszOffset := 0, stcoOffset := 0, stscOffset := 0,
                                mdatOffset := 0, currentSample := 0, currentChunk := 1,
                                samplesReadInChunk := 0 }
          false 0 1000).2.1.stscOffset ≠ 0)) ∧
    (parseTrak [] 0 0 MP4Parser.init).1 = false :=
  ⟨open_success_characterization.1 fileNonAudio MP4Parser.init,
   open_success_characterization.2 [] 0 0 MP4Parser.init
     (fun q => by rw [rd32_nil]; omega)⟩

/- Iteration-count bounds: every parsing loop executes at most fuel
iterations, where the fuel is the box-count ceiling of the source. -/

theorem stblLoop_iters_le (f : List Nat) (e : Nat) :
    ∀ (fuel : Nat) (s : MP4Parser) (cur : Nat), (stblLoop f e s cur fuel).2 ≤ fuel := by
  intro fuel
  induction fuel with
  | zero => intro s cur; simp [stblLoop]
  | succ n ih =>
    intro s cur
    simp only [stblLoop]
    split_ifs <;>
      first
        | exact Nat.zero_le _
        | exact Nat.succ_le_succ (Nat.zero_le _)
        | exact Nat.succ_le_succ (ih _ _)

theorem minfLoop_iters_le (f : List Nat) (e : Nat) :
    ∀ (fuel : Nat) (s : MP4Parser) (cur : Nat), (minfLoop f e s cur fuel).2 ≤ fuel := by
  intro fuel
  induction fuel with
  | zero => intro s cur; simp [minfLoop]
  | succ n ih =>
    intro s cur
    simp only [minfLoop]
    split_ifs <;>
      first
        | exact Nat.zero_le _
        | exact Nat.succ_le_succ (Nat.zero_le _)
        | exact Nat.succ_le_succ (ih _ _)

theorem mdiaLoop_iters_le (f : List Nat) (e : Nat) :
    ∀ (fuel : Nat) (s : MP4Parser) (ia : Bool) (cur : Nat),
      (mdiaLoop f e s ia cur fuel).2.2 ≤ fuel := by
  intro fuel
  induction fuel with
  | zero => intro s ia cur; simp [mdiaLoop]
  | succ n ih =>
    intro s ia cur
    simp only [mdiaLoop]
    split_ifs <;>
      first
        | exact Nat.zero_le _
        | exact Nat.succ_le_succ (Nat.zero_le _)
        | exact Nat.succ_le_succ (ih _ _ _)

theorem trakLoop_iters_le (f : List Nat) (e : Nat) :
    ∀ (fuel : Nat) (s : MP4Parser) (ia : Bool) (cur : Nat),
      (trakLoop f e s ia cur fuel).2.2 ≤ fuel := by
  intro fuel
  induction fuel with
  | zero => intro s ia cur; simp [trakLoop]
  | succ n ih =>
    intro s ia cur
    simp only [trakLoop]
    split_ifs <;>
      first
        | exact Nat.zero_le _
        | exact Nat.succ_le_succ (Nat.zero_le _)
        | exact Nat.succ_le_succ (ih _ _ _)

theorem moovLoop_iters_le (f : List Nat) (e : Nat) :
    ∀ (fuel : Nat) (s : MP4Parser) (cur : Nat), (moovLoop f e s cur fuel).2.2 ≤ fuel := by
  intro fuel
  induction fuel with
  | zero => intro s cur; simp [moovLoop]
  | succ n ih =>
    intro s cur
    simp only [moovLoop]
    split_ifs <;>
      first
        | exact Nat.zero_le _
        | exact Nat.succ_le_succ (Nat.zero_le _)
        | exact Nat.succ_le_succ (ih _ _)

theorem openScanLoop_iters_le (f : List Nat) (fs : Nat) :
    ∀ (fuel : Nat) (s : MP4Parser) (mf : Bool) (pos : Nat),
      (openScanLoop f fs s mf pos fuel).2.2 ≤ fuel := by
  intro fuel
  induction fuel with
  | zero => intro s mf pos; simp [openScanLoop]
  | succ n ih =>
    intro s mf pos
    simp only [openScanLoop]
    split_ifs <;>
      first
        | exact Nat.zero_le _
        | exact Nat.succ_le_succ (Nat.zero_le _)
        | exact Nat.succ_le_succ (ih _ _ _)

/-- C9: for every file contents, the parsing loops of open are bounded: the
top-level atom scan of openFile executes at most its 1000-iteration ceiling
(and at most fuel iterations for any fuel), and it stops immediately past the
file size, on a size-0 atom (the rest-of-file marker), and on an atom whose
effective size is below 8 (other than the size-0 marker and the size-1
extended form, which reads its own 64-bit size first); each nested metadata
level is bounded by its own ceiling — 500 for the moov child loop, 500 for
the trak child loop, 100 for the mdia, minf and stbl loops — and at every
nested level a child whose declared size is below 8 aborts that level after
that single iteration, leaving the state as it was. -/
theorem parser_loops_bounded :
    (∀ (f : List Nat) (fs : Nat) (s : MP4Parser) (mf : Bool) (pos fuel : Nat),
        (openScanLoop f fs s mf pos fuel).2.2 ≤ fuel) ∧
    (∀ (f : List Nat) (fs : Nat) (s : MP4Parser) (mf : Bool) (pos : Nat),
        (openScanLoop f fs s mf pos 1000).2.2 ≤ 1000) ∧
    (∀ (f : List Nat) (p a : Nat) (s : MP4Parser), (parseMoov f p a s).2.2 ≤ 500) ∧
    (∀ (f : List Nat) (p a : Nat) (s : MP4Parser), (parseTrak f p a s).2.2 ≤ 500) ∧
    (∀ (f : List Nat) (e : Nat) (s : MP4Parser) (ia : Bool) (c : Nat),
        (mdiaLoop f e s ia c 100).2.2 ≤ 100) ∧
    (∀ (f : List Nat) (e : Nat) (s : MP4Parser) (c : Nat), (minfLoop f e s c 100).2 ≤ 100) ∧
    (∀ (f : List Nat) (e : Nat) (s : MP4Parser) (c : Nat), (stblLoop f e s c 100).2 ≤ 100) ∧
    (∀ (f : List Nat) (fs : Nat) (s : MP4Parser) (mf : Bool) (pos fuel : Nat),
        fs ≤ pos → openScanLoop f fs s mf pos fuel = (mf, s, 0)) ∧
    (∀ (f : List Nat) (fs : Nat) (s : MP4Parser) (mf : Bool) (pos fuel : Nat),
        pos < fs → rd32 f pos = 0 → openScanLoop f fs s mf pos (fuel + 1) = (mf, s, 1)) ∧
    (∀ (f : List Nat) (fs : Nat) (s : MP4Parser) (mf : Bool) (pos fuel : Nat),
        pos < fs → rd32 f pos ≠ 0 → rd32 f pos ≠ 1 → rd32 f pos < 8 →
        openScanLoop f fs s mf pos (fuel + 1) = (mf, s, 1)) ∧
    (∀ (f : List Nat) (e : Nat) (s : MP4Parser) (cur fuel : Nat),
        cur < e → rd32 f cur < 8 → moovLoop f e s cur (fuel + 1) = (false, s, 1)) ∧
    (∀ (f : List Nat) (e : Nat) (s : MP4Parser) (ia : Bool) (cur fuel : Nat),
        cur < e → rd32 f cur < 8 → trakLoop f e s ia cur (fuel + 1) = (s, ia, 1)) ∧
    (∀ (f : List Nat) (e : Nat) (s : MP4Parser) (ia : Bool) (cur fuel : Nat),
        cur < e → rd32 f cur < 8 → mdiaLoop f e s ia cur (fuel + 1) = (s, ia, 1)) ∧
    (∀ (f : List Nat) (e : Nat) (s : MP4Parser) (cur fuel : Nat),
        cur < e → rd32 f cur < 8 → minfLoop f e s cur (fuel + 1) = (s, 1)) ∧
    (∀ (f : List Nat) (e : Nat) (s : MP4Parser) (cur fuel : Nat),
        cur < e → rd32 f cur < 8 → stblLoop f e s cur (fuel + 1) = (s, 1)) := by
  refine ⟨fun f fs s mf pos fuel => openScanLoop_iters_le f fs fuel s mf pos,
          fun f fs s mf pos => openScanLoop_iters_le f fs 1000 s mf pos,
          fun f p a s => moovLoop_iters_le f _ 500 s p,
          fun f p a s => trakLoop_iters_le f _ 500 _ false p,
          fun f e s ia c => mdiaLoop_iters_le f e 100 s ia c,
          fun f e s c => minfLoop_iters_le f e 100 s c,
          fun f e s c => stblLoop_iters_le f e 100 s c,
          ?_, ?_, ?_, ?_, ?_, ?_, ?_, ?_⟩
  · intro f fs s mf pos fuel h
    cases fuel with
    | zero => rfl
    | succ n =>
      simp only [openScanLoop]
      rw [if_neg (by omega)]
  · intro f fs s mf pos fuel h hz
    simp only [openScanLoop]
    rw [if_pos h, if_pos hz]
  · intro f fs s mf pos fuel h h0 h1 h8
    simp only [openScanLoop]
    rw [if_pos h, if_neg h0, if_neg h1]
    rw [if_pos h8]
  · intro f e s cur fuel h h8
    simp only [moovLoop]
    rw [if_pos h, if_pos h8]
  · intro f e s ia cur fuel h h8
    simp only [trakLoop]
    rw [if_pos h, if_pos h8]
  · intro f e s ia cur fuel h h8
    simp only [mdiaLoop]
    rw [if_pos h, if_pos h8]
  · intro f e s cur fuel h h8
    simp only [minfLoop]
    rw [if_pos h, if_pos h8]
  · intro f e s cur fuel h h8
    simp only [stblLoop]
    rw [if_pos h, if_pos h8]

theorem parser_loops_bounded_witness :
    openScanLoop [] 0 MP4Parser.init false 0 1000 = (false, MP4Parser.init, 0) ∧
    openScanLoop [0, 0, 0, 0, 0, 0, 0, 0] 8 MP4Parser.init false 0 7
      = (false, MP4Parser.init, 1) ∧
    openScanLoop [0, 0, 0, 2, 0, 0, 0, 0] 8 MP4Parser.init false 0 7
      = (false, MP4Parser.init, 1) ∧
    moovLoop [0, 0, 0, 2] 4 MP4Parser.init 0 5 = (false, MP4Parser.init, 1) ∧
    trakLoop [0, 0, 0, 2] 4 MP4Parser.init false 0 5 = (MP4Parser.init, false, 1) ∧
    mdiaLoop [0, 0, 0, 2] 4 MP4Parser.init false 0 5 = (MP4Parser.init, false, 1) ∧
    minfLoop [0, 0, 0, 2] 4 MP4Parser.init 0 5 = (MP4Parser.init, 1) ∧
    stblLoop [0, 0, 0, 2] 4 MP4Parser.init 0 5 = (MP4Parser.init, 1) :=
  ⟨parser_loops_bounded.2.2.2.2.2.2.2.1 [] 0 MP4Parser.init false 0 1000 (by omega),
   parser_loops_bounded.2.2.2.2.2.2.2.2.1 [0, 0, 0, 0, 0, 0, 0, 0] 8 MP4Parser.init false 0 6
     (by omega) (by decide),
   parser_loops_bounded.2.2.2.2.2.2.2.2.2.1 [0, 0, 0, 2, 0, 0, 0, 0] 8 MP4Parser.init false 0 6
     (by omega) (by decide) (by decide) (by decide),
   parser_loops_bounded.2.2.2.2.2.2.2.2.2.2.1 [0, 0, 0, 2] 4 MP4Parser.init 0 4
     (by omega) (by decide),
   parser_loops_bounded.2.2.2.2.2.2.2.2.2.2.2.1 [0, 0, 0, 2] 4 MP4Parser.init false 0 4
     (by omega) (by decide),
   parser_loops_bounded.2.2.2.2.2.2.2.2.2.2.2.2.1 [0, 0, 0, 2] 4 MP4Parser.init false 0 4
     (by omega) (by decide),
   parser_loops_bounded.2.2.2.2.2.2.2.2.2.2.2.2.2.1 [0, 0, 0, 2] 4 MP4Parser.init 0 4
     (by omega) (by decide),
   parser_loops_bounded.2.2.2.2.2.2.2.2.2.2.2.2.2.2 [0, 0, 0, 2] 4 MP4Parser.init 0 4
     (by omega) (by decide)⟩

theorem m32_add_period (a : Nat) : m32 (a + 4294967296) = m32 a := by
  simp [m32, Nat.add_mod_right]

theorem stscScan_spec_aux (f : List Nat) (base c n : Nat) (first per : Nat → Nat) (j : Nat)
    (hfirst : ∀ i, i < n → rd32 f (m32 (base + 12 * i)) = first i)
    (hper : ∀ i, i < n → rd32 f (m32 (base + 12 * i + 4)) = per i)
    (hj : j < n)
    (hle : ∀ i, i ≤ j → first i ≤ c)
    (hgt : ∀ i, j < i → i < n → c < first i) :
    ∀ (d k acc : Nat), k ≤ j → j - k = d →
      stscScan f (m32 (base + 12 * k)) c acc (n - k) = per j := by
  intro d
  induction d with
  | zero =>
    intro k acc hk hd
    have hkj : k = j := by omega
    subst hkj
    have hnk : n - k = (n - (k + 1)) + 1 := by omega
    rw [hnk]
    simp only [stscScan]
    rw [hfirst k (by omega)]
    rw [if_neg (by have h := hle k (Nat.le_refl k); omega)]
    rw [m32_add_left, m32_add_left]
    rw [hper k (by omega)]
    have harith : base + 12 * k + 12 = base + 12 * (k + 1) := by ring
    rw [harith]
    rcases Nat.eq_zero_or_pos (n - (k + 1)) with hz | hpos
    · rw [hz]
      rfl
    · have hnk2 : n - (k + 1) = (n - (k + 2)) + 1 := by omega
      rw [hnk2]
      simp only [stscScan]
      rw [hfirst (k + 1) (by omega)]
      rw [if_pos (hgt (k + 1) (by omega) (by omega))]
  | succ d ihd =>
    intro k acc hk hd
    have hkj : k < j := by omega
    have hnk : n - k = (n - (k + 1)) + 1 := by omega
    rw [hnk]
    simp only [stscScan]
    rw [hfirst k (by omega)]
    rw [if_neg (by have h := hle k (by omega); omega)]
    rw [m32_add_left, m32_add_left]
    rw [hper k (by omega)]
    have harith : base + 12 * k + 12 = base + 12 * (k + 1) := by ring
    rw [harith]
    exact ihd (k + 1) (per k) (by omega) (by omega)

/-- C4: in a successful readNextFrame call whose in-chunk counter has reached
the samples-per-chunk of the current chunk, the cursor advances to the next
chunk number, the in-chunk counter is reset to zero (and then incremented by
the frame read, so its post-call value is 1), the new chunk's start offset is
fetched from the chunk-offset table at 16 bytes past the table box plus 4
bytes per entry, indexed by the new chunk number minus 1 (= the old
currentChunk), and the samples-per-chunk is re-derived by scanning the
sample-to-chunk run table from its first entry, selecting the last run whose
first-chunk field is at most the new chunk number (run j, characterised by
the hypotheses); the frame payload is then read at the fetched offset. -/
theorem readNextFrame_chunk_boundary (f : List Nat) (s : MP4Parser)
    (bufferSize F n j : Nat) (first per : Nat → Nat)
    (h0 : s.stszOffset ≠ 0)
    (hF : F = (if rd32 f (m32 (s.stszOffset + 12)) = 0
               then rd32 f (m32 (s.stszOffset + 20 + s.currentSample * 4))
               else rd32 f (m32 (s.stszOffset + 12))))
    (hT : s.currentSample < rd32 f (m32 (s.stszOffset + 16)))
    (hov : F + 7 < 4294967296)
    (hbuf : F + 7 ≤ bufferSize)
    (hcross : s.samplesInCurrentChunk ≤ s.samplesReadInChunk)
    (hc32 : s.currentChunk + 1 < 4294967296)
    (hn : rd32 f (m32 (s.stscOffset + 12)) = n)
    (hfirst : ∀ i, i < n → rd32 f (m32 (s.stscOffset + 16 + 12 * i)) = first i)
    (hper : ∀ i, i < n → rd32 f (m32 (s.stscOffset + 16 + 12 * i + 4)) = per i)
    (hj : j < n)
    (hle : ∀ i, i ≤ j → first i ≤ s.currentChunk + 1)
    (hgt : ∀ i, j < i → i < n → s.currentChunk + 1 < first i) :
    MP4Parser.readNextFrame f s bufferSize
      = (F + 7,
         { s with currentChunk := s.currentChunk + 1,
                  samplesInCurrentChunk := per j,
                  samplesReadInChunk := 1,
                  currentOffset :=
                    m32 (rd32 f (m32 (s.stcoOffset + 16 + s.currentChunk * 4)) + F),
                  currentSample := m32 (s.currentSample + 1) },
         generateAdtsHeader (F + 7) 2 s.sampleRate s.channels
           ++ (List.range F).map (fun jj =>
                byteAt f (m32 (rd32 f (m32 (s.stcoOffset + 16 + s.currentChunk * 4)) + jj)))) := by
  have hms : m32 (F + 7) = F + 7 := m32_eq_of_lt hov
  have hscan := stscScan_spec_aux f (s.stscOffset + 16) (s.currentChunk + 1) n first per j
    hfirst hper hj hle hgt j 0 s.samplesInCurrentChunk (Nat.zero_le j) rfl
  simp only [Nat.mul_zero, Nat.add_zero, Nat.sub_zero] at hscan
  have e1 : s.currentChunk + 1 + 4294967295 = s.currentChunk + 4294967296 := by omega
  have e2 : m32 s.currentChunk = s.currentChunk := m32_eq_of_lt (by omega)
  simp only [MP4Parser.readNextFrame]
  rw [if_neg h0]
  rw [if_neg (by omega)]
  rw [← hF, hms]
  rw [if_neg (by omega)]
  rw [if_pos hcross]
  rw [m32_eq_of_lt hc32, e1, m32_add_period, e2, hn, hscan]
  have e3 : m32 (0 + 1) = 1 := rfl
  simp [e3]

/- A file fragment holding a sample-to-chunk table at offset 0 with two runs
(chunks 1..4 carry 3 samples, chunks 5+ carry 9), a chunk-offset table at
offset 40 (entry for chunk 2 at byte 60 holds 100), and a sample-size table
at offset 64 with shared size 5 and sample count 10. -/
def fileChunk : List Nat :=
  [0, 0, 0, 0, 0, 0, 0, 0, 0, 0, 0, 0,
   0, 0, 0, 2,
   0, 0, 0, 1, 0, 0, 0, 3, 0, 0, 0, 1,
   0, 0, 0, 5, 0, 0, 0, 9, 0, 0, 0, 1,
   0, 0, 0, 0, 0, 0, 0, 0, 0, 0, 0, 0, 0, 0, 0, 0,
   0, 0, 0, 90,
   0, 0, 0, 100,
   0, 0, 0, 0, 0, 0, 0, 0, 0, 0, 0, 0,
   0, 0, 0, 5,
   0, 0, 0, 10]

/- A parser state at the end of chunk 1 (3 of 3 samples consumed). -/
def stChunk : MP4Parser :=
  { stszOffset := 64, stcoOffset := 40, stscOffset := 0, mdatOffset := 0,
    sampleRate := 22050, channels := 1, currentSample := 3, currentChunk := 1,
    samplesInCurrentChunk := 3, samplesReadInChunk := 3, currentOffset := 77 }

theorem readNextFrame_chunk_boundary_witness :
    MP4Parser.readNextFrame fileChunk stChunk 64
      = (12,
         { stszOffset := 64, stcoOffset := 40, stscOffset := 0, mdatOffset := 0,
           sampleRate := 22050, channels := 1, currentSample := 4, currentChunk := 2,
           samplesInCurrentChunk := 3, samplesReadInChunk := 1, currentOffset := 105 },
         generateAdtsHeader 12 2 22050 1
           ++ (List.range 5).map (fun jj => byteAt fileChunk (100 + jj))) := by
  have h := readNextFrame_chunk_boundary fileChunk stChunk 64 5 2 0
      (fun i => if i = 0 then 1 else 5) (fun i => if i = 0 then 3 else 9)
      (by decide) (by rfl) (by decide) (by decide) (by decide) (by decide) (by decide)
      (by rfl)
      (by intro i hi; interval_cases i <;> rfl)
      (by intro i hi; interval_cases i <;> rfl)
      (by decide)
      (by intro i hi; interval_cases i <;> decide)
      (by intro i h1 h2; interval_cases i <;> decide)
  rw [h]
  rfl

attribute [ext] MP4Parser

/- The scan loops of openFile never touch the playback cursor fields
currentSample and samplesReadInChunk (they only record offsets and parse
codec parameters), so the reset values survive until the success branch. -/

theorem parseStsd_cursor (f : List Nat) (p : Nat) (s : MP4Parser) :
    (parseStsd f p s).2.currentSample = s.currentSample ∧
    (parseStsd f p s).2.samplesReadInChunk = s.samplesReadInChunk := by
  simp only [parseStsd]
  split_ifs <;> exact ⟨rfl, rfl⟩

theorem stblLoop_cursor (f : List Nat) (e : Nat) :
    ∀ (fuel : Nat) (s : MP4Parser) (cur : Nat),
      (stblLoop f e s cur fuel).1.currentSample = s.currentSample ∧
      (stblLoop f e s cur fuel).1.samplesReadInChunk = s.samplesReadInChunk := by
  intro fuel
  induction fuel with
  | zero => intro s cur; exact ⟨rfl, rfl⟩
  | succ n ih =>
    intro s cur
    simp only [stblLoop]
    split_ifs <;>
      first
        | exact ⟨rfl, rfl⟩
        | exact ih _ _
        | exact ⟨(ih _ _).1.trans (parseStsd_cursor f _ s).1,
                 (ih _ _).2.trans (parseStsd_cursor f _ s).2⟩

theorem minfLoop_cursor (f : List Nat) (e : Nat) :
    ∀ (fuel : Nat) (s : MP4Parser) (cur : Nat),
      (minfLoop f e s cur fuel).1.currentSample = s.currentSample ∧
      (minfLoop f e s cur fuel).1.samplesReadInChunk = s.samplesReadInChunk := by
  intro fuel
  induction fuel with
  | zero => intro s cur; exact ⟨rfl, rfl⟩
  | succ n ih =>
    intro s cur
    simp only [minfLoop]
    split_ifs <;>
      first
        | exact ⟨rfl, rfl⟩
        | exact ih _ _
        | exact ⟨(ih _ _).1.trans (stblLoop_cursor f _ _ s _).1,
                 (ih _ _).2.trans (stblLoop_cursor f _ _ s _).2⟩

theorem mdiaLoop_cursor (f : List Nat) (e : Nat) :
    ∀ (fuel : Nat) (s : MP4Parser) (ia : Bool) (cur : Nat),
      (mdiaLoop f e s ia cur fuel).1.currentSample = s.currentSample ∧
      (mdiaLoop f e s ia cur fuel).1.samplesReadInChunk = s.samplesReadInChunk := by
  intro fuel
  induction fuel with
  | zero => intro s ia cur; exact ⟨rfl, rfl⟩
  | succ n ih =>
    intro s ia cur
    simp only [mdiaLoop]
    split_ifs <;>
      first
        | exact ⟨rfl, rfl⟩
        | exact ih _ _ _
        | exact ⟨(ih _ _ _).1.trans (minfLoop_cursor f _ _ s _).1,
                 (ih _ _ _).2.trans (minfLoop_cursor f _ _ s _).2⟩

theorem trakLoop_cursor (f : List Nat) (e : Nat) :
    ∀ (fuel : Nat) (s : MP4Parser) (ia : Bool) (cur : Nat),
      (trakLoop f e s ia cur fuel).1.currentSample = s.currentSample ∧
      (trakLoop f e s ia cur fuel).1.samplesReadInChunk = s.samplesReadInChunk := by
  intro fuel
  induction fuel with
  | zero => intro s ia cur; exact ⟨rfl, rfl⟩
  | succ n ih =>
    intro s ia cur
    simp only [trakLoop]
    split_ifs <;>
      first
        | exact ⟨rfl, rfl⟩
        | exact ih _ _ _
        | exact ⟨(ih _ _ _).1.trans (mdiaLoop_cursor f _ _ s _ _).1,
                 (ih _ _ _).2.trans (mdiaLoop_cursor f _ _ s _ _).2⟩

theorem parseTrak_cursor (f : List Nat) (p a : Nat) (s : MP4Parser) :
    (parseTrak f p a s).2.1.currentSample = s.currentSample ∧
    (parseTrak f p a s).2.1.samplesReadInChunk = s.samplesReadInChunk :=
  ⟨(trakLoop_cursor f _ 500 _ false p).1, (trakLoop_cursor f _ 500 _ false p).2⟩

theorem moovLoop_cursor (f : List Nat) (e : Nat) :
    ∀ (fuel : Nat) (s : MP4Parser) (cur : Nat),
      (moovLoop f e s cur fuel).2.1.currentSample = s.currentSample ∧
      (moovLoop f e s cur fuel).2.1.samplesReadInChunk = s.samplesReadInChunk := by
  intro fuel
  induction fuel with
  | zero => intro s cur; exact ⟨rfl, rfl⟩
  | succ n ih =>
    intro s cur
    simp only [moovLoop]
    split_ifs <;>
      first
        | exact ⟨rfl, rfl⟩
        | exact ih _ _
        | exact ⟨(parseTrak_cursor f _ _ s).1, (parseTrak_cursor f _ _ s).2⟩
        | exact ⟨(ih _ _).1.trans (parseTrak_cursor f _ _ s).1,
                 (ih _ _).2.trans (parseTrak_cursor f _ _ s).2⟩

theorem openScanLoop_cursor (f : List Nat) (fs : Nat) :
    ∀ (fuel : Nat) (s : MP4Parser) (mf : Bool) (pos : Nat),
      (openScanLoop f fs s mf pos fuel).2.1.currentSample = s.currentSample ∧
      (openScanLoop f fs s mf pos fuel).2.1.samplesReadInChunk = s.samplesReadInChunk := by
  intro fuel
  induction fuel with
  | zero => intro s mf pos; exact ⟨rfl, rfl⟩
  | succ n ih =>
    intro s mf pos
    simp only [openScanLoop, parseMoov]
    split_ifs <;>
      first
        | exact ⟨rfl, rfl⟩
        | exact ih _ _ _
        | exact ⟨(moovLoop_cursor f _ 500 s _).1, (moovLoop_cursor f _ 500 s _).2⟩
        | exact ⟨(ih _ _ _).1.trans (moovLoop_cursor f _ 500 s _).1,
                 (ih _ _ _).2.trans (moovLoop_cursor f _ 500 s _).2⟩

/- Facts available after a successful openFile: the cursor is freshly seeded
(sample 0, chunk 1, nothing read in the chunk, samples-per-chunk from the
first sample-to-chunk run, offset from the first chunk-offset entry) and all
three table offsets are nonzero. -/
theorem openFile_success (f : List Nat) (sIn s : MP4Parser)
    (h : MP4Parser.openFile f sIn = (true, s)) :
    s.currentSample = 0 ∧ s.currentChunk = 1 ∧ s.samplesReadInChunk = 0 ∧
    s.samplesInCurrentChunk = rd32 f (m32 (s.stscOffset + 20)) ∧
    s.currentOffset = rd32 f (m32 (s.stcoOffset + 16)) ∧
    s.stszOffset ≠ 0 ∧ s.stcoOffset ≠ 0 ∧ s.stscOffset ≠ 0 := by
  simp only [MP4Parser.openFile] at h
  split_ifs at h with hc
  · injection h with h1 h2
    subst h2
    simp only [Bool.and_eq_true, bne_iff_ne, ne_eq] at hc
    refine ⟨?_, rfl, ?_, rfl, rfl, hc.1.1.2, hc.1.2, hc.2⟩
    · exact (openScanLoop_cursor f f.length 1000 _ false 0).1
    · exact (openScanLoop_cursor f f.length 1000 _ false 0).2
  · injection h with h1 h2
    exact absurd h1 (by simp)

/- The playback cursor of a parser whose track uses a single shared sample
size S and a single sample-to-chunk run of K samples per chunk, positioned m
samples into chunk q + 1 (0-based chunk index q with start offset O q). -/
def chunkState (s : MP4Parser) (K S : Nat) (O : Nat → Nat) (q m : Nat) : MP4Parser :=
  { s with currentSample := K * q + m, currentChunk := q + 1,
           samplesReadInChunk := m, samplesInCurrentChunk := K,
           currentOffset := O q + m * S }

/- The table layout hypotheses of the shared-size scenario, phrased at the
exact byte positions the parser reads: the sample-size table at stsz holds
shared size S (nonzero) and count T; the sample-to-chunk table at stsc holds
the single run (1, K); the chunk-offset table at stco holds O q for each
chunk the track uses; and the quantities stay below 2^32 so that none of the
parser's uint32 cursor updates wrap. -/
structure SharedSizeTables (f : List Nat) (stsz stco stsc S K T : Nat) (O : Nat → Nat) :
    Prop where
  hS : rd32 f (m32 (stsz + 12)) = S
  hS0 : 0 < S
  hT : rd32 f (m32 (stsz + 16)) = T
  hn1 : rd32 f (m32 (stsc + 12)) = 1
  hfc : rd32 f (m32 (stsc + 16)) = 1
  hsp : rd32 f (m32 (stsc + 20)) = K
  hK : 0 < K
  hO : ∀ c, K * c < T → rd32 f (m32 (stco + 16 + c * 4)) = O c
  hOB : ∀ c, K * c < T → O c + K * S < 4294967296
  hT32 : T + 2 < 4294967296
  hS7 : S + 7 < 4294967296

theorem readNextFrame_step_in_chunk (f : List Nat) (s0 : MP4Parser) (S K T : Nat)
    (O : Nat → Nat) (bufferSize : Nat)
    (H : SharedSizeTables f s0.stszOffset s0.stcoOffset s0.stscOffset S K T O)
    (hstsz : s0.stszOffset ≠ 0)
    (hbuf : S + 7 ≤ bufferSize) (q m : Nat) (hm : m < K) (hi : K * q + m < T) :
    MP4Parser.readNextFrame f (chunkState s0 K S O q m) bufferSize
      = (S + 7, chunkState s0 K S O q (m + 1),
         generateAdtsHeader (S + 7) 2 s0.sampleRate s0.channels
           ++ (List.range S).map (fun j => byteAt f (O q + m * S + j))) := by
  obtain ⟨hS, hS0, hT, hn1, hfc, hsp, hK, hO, hOB, hT32, hS7⟩ := H
  have hK32 : K < 4294967296 := by rw [← hsp]; exact rd32_lt f _
  have hqT : K * q < T := by omega
  have hOBq := hOB q hqT
  have hmul : (m + 1) * S ≤ K * S := Nat.mul_le_mul_right S (by omega)
  have hexp : m * S + S = (m + 1) * S := by ring
  have hms : m32 (S + 7) = S + 7 := m32_eq_of_lt (by omega)
  simp only [MP4Parser.readNextFrame, chunkState]
  rw [if_neg hstsz, hS]
  rw [if_neg (by omega : ¬ rd32 f (m32 (s0.stszOffset + 16)) ≤ K * q + m)]
  rw [if_neg (by omega : ¬ S = 0)]
  rw [hms]
  rw [if_neg (by omega : ¬ bufferSize < S + 7)]
  rw [if_neg (by omega : ¬ K ≤ m)]
  have hoff : m32 (O q + m * S + S) = O q + (m + 1) * S := by
    have e : O q + m * S + S = O q + (m + 1) * S := by ring
    rw [e]
    exact m32_eq_of_lt (by omega)
  have hsample : m32 (K * q + m + 1) = K * q + (m + 1) := by
    rw [m32_eq_of_lt (by omega)]
    omega
  have hsr : m32 (m + 1) = m + 1 := m32_eq_of_lt (by omega)
  have hpay : (List.range S).map (fun j => byteAt f (m32 (O q + m * S + j)))
      = (List.range S).map (fun j => byteAt f (O q + m * S + j)) := by
    apply List.map_congr_left
    intro a ha
    have haS : a < S := List.mem_range.mp ha
    rw [m32_eq_of_lt (by omega)]
  rw [hoff, hsample, hsr, hpay]

theorem readNextFrame_step_chunk_cross (f : List Nat) (s0 : MP4Parser) (S K T : Nat)
    (O : Nat → Nat) (bufferSize : Nat)
    (H : SharedSizeTables f s0.stszOffset s0.stcoOffset s0.stscOffset S K T O)
    (hstsz : s0.stszOffset ≠ 0)
    (hbuf : S + 7 ≤ bufferSize) (q : Nat) (hi : K * (q + 1) < T) :
    MP4Parser.readNextFrame f (chunkState s0 K S O q K) bufferSize
      = (S + 7, chunkState s0 K S O (q + 1) 1,
         generateAdtsHeader (S + 7) 2 s0.sampleRate s0.channels
           ++ (List.range S).map (fun j => byteAt f (O (q + 1) + j))) := by
  obtain ⟨hS, hS0, hT, hn1, hfc, hsp, hK, hO, hOB, hT32, hS7⟩ := H
  have hK32 : K < 4294967296 := by rw [← hsp]; exact rd32_lt f _
  have hq1 : q + 1 ≤ K * (q + 1) := Nat.le_mul_of_pos_left (q + 1) hK
  have hsmp : K * q + K < T := by
    have e : K * (q + 1) = K * q + K := by ring
    omega
  have hOBq := hOB (q + 1) hi
  have hSK : S ≤ K * S := Nat.le_mul_of_pos_left S hK
  have hms : m32 (S + 7) = S + 7 := m32_eq_of_lt (by omega)
  simp only [MP4Parser.readNextFrame, chunkState]
  rw [if_neg hstsz, hS]
  rw [if_neg (by omega : ¬ rd32 f (m32 (s0.stszOffset + 16)) ≤ K * q + K)]
  rw [if_neg (by omega : ¬ S = 0)]
  rw [hms]
  rw [if_neg (by omega : ¬ bufferSize < S + 7)]
  rw [if_pos (Nat.le_refl K)]
  have hchunk : m32 (q + 1 + 1) = q + 2 := by
    rw [m32_eq_of_lt (by omega)]
  have e1 : q + 2 + 4294967295 = q + 1 + 4294967296 := by omega
  have e2 : m32 (q + 1) = q + 1 := m32_eq_of_lt (by omega)
  rw [hchunk, e1, m32_add_period, e2]
  rw [hO (q + 1) hi]
  rw [hn1]
  simp only [stscScan]
  rw [hfc]
  rw [if_neg (by omega : ¬ q + 2 < 1)]
  rw [m32_add_left]
  rw [hsp]
  have hoff : m32 (O (q + 1) + S) = O (q + 1) + 1 * S := by
    rw [m32_eq_of_lt (by omega)]
    ring
  have hsample : m32 (K * q + K + 1) = K * (q + 1) + 1 := by
    rw [m32_eq_of_lt (by omega)]
    ring
  have hsr : m32 (0 + 1) = 1 := rfl
  have hpay : (List.range S).map (fun j => byteAt f (m32 (O (q + 1) + j)))
      = (List.range S).map (fun j => byteAt f (O (q + 1) + j)) := by
    apply List.map_congr_left
    intro a ha
    have haS : a < S := List.mem_range.mp ha
    rw [m32_eq_of_lt (by omega)]
  rw [hoff, hsample, hsr, hpay]

/- The parser cursor after i readNextFrame calls in the shared-size scenario:
call 0 starts at chunk 1 with nothing consumed; after that, call i - 1 left
the cursor (i-1) % K + 1 samples into 0-based chunk (i-1) / K. -/
def sharedCursor (s : MP4Parser) (K S : Nat) (O : Nat → Nat) (i : Nat) : MP4Parser :=
  if i = 0 then chunkState s K S O 0 0
  else chunkState s K S O ((i - 1) / K) ((i - 1) % K + 1)

theorem div_mod_of_rep (K q r : Nat) (hK : 0 < K) (hr : r < K) :
    (K * q + r) / K = q ∧ (K * q + r) % K = r := by
  constructor
  · rw [Nat.mul_add_div hK, Nat.div_eq_of_lt hr, Nat.add_zero]
  · rw [Nat.mul_add_mod, Nat.mod_eq_of_lt hr]

theorem readNextFrame_end (f : List Nat) (s : MP4Parser) (bufferSize : Nat)
    (h : rd32 f (m32 (s.stszOffset + 16)) ≤ s.currentSample) :
    MP4Parser.readNextFrame f s bufferSize = (0, s, []) := by
  simp only [MP4Parser.readNextFrame]
  split_ifs <;> first | rfl | omega

theorem sharedCursor_step (f : List Nat) (s0 : MP4Parser) (S K T : Nat)
    (O : Nat → Nat) (bufferSize : Nat)
    (H : SharedSizeTables f s0.stszOffset s0.stcoOffset s0.stscOffset S K T O)
    (hstsz : s0.stszOffset ≠ 0) (hbuf : S + 7 ≤ bufferSize) :
    ∀ n, n < T → MP4Parser.readNextFrame f (sharedCursor s0 K S O n) bufferSize
      = (S + 7, sharedCursor s0 K S O (n + 1),
         generateAdtsHeader (S + 7) 2 s0.sampleRate s0.channels
           ++ (List.range S).map (fun j => byteAt f (O (n / K) + (n % K) * S + j))) := by
  intro n hn
  by_cases hn0 : n = 0
  · subst hn0
    have e0 : sharedCursor s0 K S O 0 = chunkState s0 K S O 0 0 := by
      simp [sharedCursor]
    have e1 : sharedCursor s0 K S O (0 + 1) = chunkState s0 K S O 0 1 := by
      simp [sharedCursor]
    rw [e0, e1,
      readNextFrame_step_in_chunk f s0 S K T O bufferSize H hstsz hbuf 0 0 H.hK
        (by simpa using hn)]
    simp
  · have hj := Nat.div_add_mod (n - 1) K
    have hjm : (n - 1) % K < K := Nat.mod_lt _ H.hK
    simp only [sharedCursor, if_neg hn0]
    rw [if_neg (by omega : ¬ n + 1 = 0)]
    simp only [Nat.add_sub_cancel]
    by_cases hc : (n - 1) % K + 1 < K
    · rw [readNextFrame_step_in_chunk f s0 S K T O bufferSize H hstsz hbuf
        ((n - 1) / K) ((n - 1) % K + 1) hc (by omega)]
      obtain ⟨hdiv, hmod⟩ := div_mod_of_rep K ((n - 1) / K) ((n - 1) % K + 1) H.hK hc
      have hrepr : K * ((n - 1) / K) + ((n - 1) % K + 1) = n := by omega
      rw [hrepr] at hdiv hmod
      rw [hdiv, hmod]
    · have hm : (n - 1) % K + 1 = K := by omega
      rw [hm]
      have hiB : K * ((n - 1) / K + 1) < T := by
        have e : K * ((n - 1) / K + 1) = K * ((n - 1) / K) + K := by ring
        omega
      rw [readNextFrame_step_chunk_cross f s0 S K T O bufferSize H hstsz hbuf
        ((n - 1) / K) hiB]
      obtain ⟨hdiv, hmod⟩ := div_mod_of_rep K ((n - 1) / K + 1) 0 H.hK H.hK
      have hrep2 : K * ((n - 1) / K + 1) + 0 = n := by
        have e : K * ((n - 1) / K + 1) = K * ((n - 1) / K) + K := by ring
        omega
      rw [hrep2] at hdiv hmod
      rw [hdiv, hmod]
      simp

/-- C1: for a container file successfully opened by openFile whose (single
audio) track has a sample-size table with one shared size S for all T
samples, a chunk-offset table with entries O 0, O 1, ... and a
sample-to-chunk table holding the single run (chunk 1, K samples per chunk),
readNextFrame called with a buffer of size at least S + 7 returns S + 7
exactly T times — the i-th call (0-based) writing the synthesized 7-byte
header followed by the payload read from absolute file offset
O (i / K) + (i % K) * S — and every call from the T-th on returns 0. -/
theorem readNextFrame_sharedSize_frames (f : List Nat) (sIn s : MP4Parser)
    (S K T bufferSize : Nat) (O : Nat → Nat)
    (hopen : MP4Parser.openFile f sIn = (true, s))
    (hS : rd32 f (m32 (s.stszOffset + 12)) = S) (hS0 : 0 < S)
    (hT : rd32 f (m32 (s.stszOffset + 16)) = T)
    (hn1 : rd32 f (m32 (s.stscOffset + 12)) = 1)
    (hfc : rd32 f (m32 (s.stscOffset + 16)) = 1)
    (hsp : rd32 f (m32 (s.stscOffset + 20)) = K)
    (hK : 0 < K)
    (hO : ∀ c, K * c < T → rd32 f (m32 (s.stcoOffset + 16 + c * 4)) = O c)
    (hOB : ∀ c, K * c < T → O c + K * S < 4294967296)
    (hT32 : T + 2 < 4294967296)
    (hS7 : S + 7 < 4294967296)
    (hbuf : S + 7 ≤ bufferSize) :
    (∀ i, i < T →
      (MP4Parser.readNextFrame f (nthState f bufferSize s i) bufferSize).1 = S + 7 ∧
      (MP4Parser.readNextFrame f (nthState f bufferSize s i) bufferSize).2.2
        = generateAdtsHeader (S + 7) 2 s.sampleRate s.channels
          ++ (List.range S).map (fun j => byteAt f (O (i / K) + (i % K) * S + j))) ∧
    (∀ i, T ≤ i →
      (MP4Parser.readNextFrame f (nthState f bufferSize s i) bufferSize).1 = 0) := by
  have H : SharedSizeTables f s.stszOffset s.stcoOffset s.stscOffset S K T O :=
    ⟨hS, hS0, hT, hn1, hfc, hsp, hK, hO, hOB, hT32, hS7⟩
  obtain ⟨hcs0, hcc0, hsr0, hsic0, hoff0, hstsz, hstco, hstsc⟩ := openFile_success f sIn s hopen
  by_cases hT0 : T = 0
  · have hfix : ∀ i, nthState f bufferSize s i = s := by
      intro i
      induction i with
      | zero => rfl
      | succ n ihn =>
        simp only [nthState, ihn]
        rw [readNextFrame_end f s bufferSize (by omega)]
    refine ⟨fun i hi => absurd hi (by omega), fun i hi => ?_⟩
    rw [hfix i, readNextFrame_end f s bufferSize (by omega)]
  · have hT1 : 0 < T := by omega
    have hO0e : rd32 f (m32 (s.stcoOffset + 16)) = O 0 := by
      have h := hO 0 (by simpa using hT1)
      simpa using h
    have hs0 : s = chunkState s K S O 0 0 := by
      ext <;> simp [chunkState, hcs0, hcc0, hsr0, hsic0, hoff0, hsp, hO0e]
    have hstep := sharedCursor_step f s S K T O bufferSize H hstsz hbuf
    have inv : ∀ i, i ≤ T → nthState f bufferSize s i = sharedCursor s K S O i := by
      intro i
      induction i with
      | zero =>
        intro _
        simpa [sharedCursor] using hs0
      | succ n ihn =>
        intro hn2
        simp only [nthState]
        rw [ihn (by omega), hstep n (by omega)]
    have hcsT : (sharedCursor s K S O T).currentSample = T := by
      simp only [sharedCursor, if_neg (by omega : ¬ T = 0), chunkState]
      have hj := Nat.div_add_mod (T - 1) K
      omega
    have hszT : (sharedCursor s K S O T).stszOffset = s.stszOffset := by
      simp only [sharedCursor]
      split_ifs <;> rfl
    have hend : rd32 f (m32 ((sharedCursor s K S O T).stszOffset + 16))
        ≤ (sharedCursor s K S O T).currentSample := by
      rw [hszT, hcsT, hT]
    have hTi : ∀ d, nthState f bufferSize s (T + d) = sharedCursor s K S O T := by
      intro d
      induction d with
      | zero => exact inv T (Nat.le_refl T)
      | succ d2 ihd =>
        have e : T + (d2 + 1) = (T + d2) + 1 := by omega
        rw [e]
        simp only [nthState]
        rw [ihd, readNextFrame_end f _ bufferSize hend]
    refine ⟨fun i hi => ?_, fun i hi => ?_⟩
    · rw [inv i (by omega), hstep i hi]
      exact ⟨rfl, rfl⟩
    · obtain ⟨d, hd⟩ : ∃ d, i = T + d := ⟨i - T, by omega⟩
      rw [hd, hTi d, readNextFrame_end f _ bufferSize hend]

/- The parser state produced by a successful openFile on fileAudio. -/
def sAudio : MP4Parser :=
  { stszOffset := 60, stcoOffset := 80, stscOffset := 108, mdatOffset := 144,
    sampleRate := 44100, channels := 2, currentSample := 0, currentChunk := 1,
    samplesInCurrentChunk := 2, samplesReadInChunk := 0, currentOffset := 144 }

set_option maxRecDepth 8000 in
theorem readNextFrame_sharedSize_frames_witness :
    MP4Parser.openFile fileAudio MP4Parser.init = (true, sAudio) ∧
    ((∀ i, i < 6 →
      (MP4Parser.readNextFrame fileAudio (nthState fileAudio 64 sAudio i) 64).1 = 10 + 7 ∧
      (MP4Parser.readNextFrame fileAudio (nthState fileAudio 64 sAudio i) 64).2.2
        = generateAdtsHeader (10 + 7) 2 44100 2
          ++ (List.range 10).map
              (fun j => byteAt fileAudio (144 + 20 * (i / 2) + (i % 2) * 10 + j))) ∧
    (∀ i, 6 ≤ i →
      (MP4Parser.readNextFrame fileAudio (nthState fileAudio 64 sAudio i) 64).1 = 0)) := by
  have hopen : MP4Parser.openFile fileAudio MP4Parser.init = (true, sAudio) := by rfl
  refine ⟨hopen, readNextFrame_sharedSize_frames fileAudio MP4Parser.init sAudio 10 2 6 64
    (fun q => 144 + 20 * q) hopen rfl (by omega) rfl rfl rfl rfl (by omega)
    ?_ ?_ (by omega) (by omega) (by omega)⟩
  · intro c hc
    have hc3 : c < 3 := by omega
    interval_cases c <;> rfl
  · intro c hc
    have hc3 : c < 3 := by omega
    interval_cases c <;> decide
